import Mathlib

set_option maxHeartbeats 1000000

/-
Shallow embedding of the ilCorsaroViola debrid-cache and id-converter modules.

The first source file defines three provider clients (RealDebrid, Torbox,
AllDebrid), each with an asynchronous checkCache method, plus a parallel
aggregator checkAllDebridCaches.  The second file (src/lib/id-converter.cjs)
defines imdbToTmdb, tmdbToImdb and completeIds over the TMDb lookup API.

Network effects are embedded by passing the outcome of each fetch (transport
error, or an HTTP response with an ok flag and a parsed JSON body) as an
explicit argument.  JSON bodies are modelled by the JVal type below, and the
JavaScript result objects (plain objects used as string-keyed maps, written
by repeated assignment) are modelled by append-based association lists whose
lookup takes the last binding, matching the overwrite semantics of
JavaScript property assignment.
-/

namespace IlCorsaroViola

/-- JSON-like values as produced by response.json in the source.  jnull also
stands for the JavaScript null that a JSON body can contain. -/
inductive JVal where
  | jnull : JVal
  | jbool (b : Bool) : JVal
  | jnum (n : Int) : JVal
  | jstr (s : String) : JVal
  | jarr (elems : List JVal) : JVal
  | jobj (fields : List (String × JVal)) : JVal

/-- JavaScript truthiness of a JVal: null, false, 0 and the empty string are
falsy; arrays and objects (even empty ones) are truthy. -/
def JVal.truthy : JVal → Bool
  | .jnull => false
  | .jbool b => b
  | .jnum n => n != 0
  | .jstr s => s != ""
  | .jarr _ => true
  | .jobj _ => true

/-- Property access v[k] on a JSON value: defined field lookup on objects,
undefined (none) on everything else. -/
def JVal.getField : JVal → String → Option JVal
  | .jobj fields, k => fields.lookup k
  | _, _ => none

/-- Whether a JVal is the JSON null value. -/
def JVal.isNull : JVal → Bool
  | .jnull => true
  | _ => false

/-- Truthiness of a possibly-undefined JavaScript value (undefined is falsy). -/
def jsTruthy : Option JVal → Bool
  | none => false
  | some v => v.truthy

/-- Property access e[k] where e may be undefined (undefined yields undefined).
Used only at call sites where the source guards the access so that e cannot
be null there. -/
def jsGet : Option JVal → String → Option JVal
  | some v, k => v.getField k
  | none, _ => none

/-- Optional chaining e?.k: undefined and null short-circuit to undefined. -/
def jsOptChain : Option JVal → String → Option JVal
  | some .jnull, _ => none
  | some v, k => v.getField k
  | none, _ => none

/-- The JavaScript pattern (e || []) used for the variants and files fields:
a falsy or undefined value is replaced by the empty array. -/
def jsOrElseArr : Option JVal → JVal
  | some v => if v.truthy then v else .jarr []
  | none => .jarr []

/-- The JavaScript test (e.length > 0) as used on cacheInfo.rd: positive
length for arrays and strings, a positive numeric length field for objects,
and false otherwise (undefined > 0 is false in JavaScript). -/
def jsLenPos : Option JVal → Bool
  | some (.jarr elems) => elems.length > 0
  | some (.jstr s) => s.length > 0
  | some (.jobj fields) =>
      match fields.lookup "length" with
      | some (.jnum n) => n > 0
      | _ => false
  | _ => false

/-- The JavaScript toLowerCase operation, modelled characterwise over the
string data (String.toLower of core computes the same letters but does not
reduce inside the kernel, so the embedding uses this list-based form). -/
def jsToLower (s : String) : String := String.mk (s.data.map Char.toLower)

/-- The JavaScript startsWith test, modelled over the string data
(String.startsWith of core compares UTF-8 bytes and does not reduce inside
the kernel, so the embedding uses this list-based form). -/
def jsStartsWith (s p : String) : Bool := s.data.take p.data.length == p.data

/-- Outcome of one fetch together with response.json: either the whole try
step throws (transport error, rejected promise, or an unparseable body), or a
response arrives with its ok flag and parsed body. -/
inductive FetchOutcome (β : Type) where
  | throws : FetchOutcome β
  | response (ok : Bool) (body : β) : FetchOutcome β

/-- A JavaScript object used as a string-keyed map, built by repeated
assignment.  Bindings are appended in program order. -/
abbrev JMap (V : Type) : Type := List (String × V)

/-- Assignment m[k] = v. -/
def JMap.set {V : Type} (m : JMap V) (k : String) (v : V) : JMap V :=
  m ++ [(k, v)]

/-- Lookup m[k]: the last binding wins, matching assignment overwrite. -/
def JMap.get {V : Type} (m : JMap V) (k : String) : Option V :=
  m.foldl (fun acc p => if p.1 == k then some p.2 else acc) none

/-- A forEach loop that assigns m[key x] = val x for each x in order. -/
def JMap.writeAll {V α : Type} (m : JMap V) (xs : List α)
    (key : α → String) (val : α → V) : JMap V :=
  xs.foldl (fun acc x => acc.set (key x) (val x)) m

-- =====================================================
-- RealDebrid.checkCache
-- =====================================================

/-- One entry of the RealDebrid checkCache result object. -/
structure RdStatus where
  cached : Bool
  variants : JVal
  downloadLink : Option String
  service : String

/-- The entry written for a hash of a failed batch (non-2xx response or
thrown transport error). -/
def rdUncached : RdStatus :=
  { cached := false, variants := .jarr [], downloadLink := none
    service := "Real-Debrid" }

/-- The entry written for a hash of a successful batch: cacheInfo is
data[hashLower]; cached when cacheInfo is truthy and cacheInfo.rd is truthy
with positive length; variants is cacheInfo?.rd or the empty array. -/
def rdSuccessStatus (body : JVal) (h : String) : RdStatus :=
  let cacheInfo := body.getField (jsToLower h)
  let isCached :=
    jsTruthy cacheInfo &&
      (jsTruthy (jsGet cacheInfo "rd") && jsLenPos (jsGet cacheInfo "rd"))
  { cached := isCached, variants := jsOrElseArr (jsOptChain cacheInfo "rd")
    downloadLink := none, service := "Real-Debrid" }

/-- Observable events of one RealDebrid.checkCache run: the batch requests
issued and the awaited setTimeout delays, in order. -/
inductive RdEvent where
  | request (batch : List String) : RdEvent
  | delayMs (ms : Nat) : RdEvent
deriving DecidableEq, Repr

/-- Fuel-driven helper for the batch slicing; the fuel bounds the number of
remaining loop iterations and the list length is always a sufficient
bound. -/
def rdChunksAux : Nat → List String → List (List String)
  | _, [] => []
  | 0, _ :: _ => []
  | fuel + 1, x :: t => ((x :: t).take 40) :: rdChunksAux fuel ((x :: t).drop 40)

/-- The batches produced by the loop for i in steps of 40 over hashes,
taking slice i to i + 40 each round (batchSize = 40). -/
def rdChunks (xs : List String) : List (List String) :=
  rdChunksAux xs.length xs

/-- The RealDebrid batch loop over the precomputed batches.  The delay guard
i + batchSize < hashes.length of the source holds exactly when further
batches remain, and the delay line sits inside the try block after the
response handling, so any throw skips it: both a thrown fetch/json and a
2xx response whose parsed body is JSON null, on which data[hashLower]
raises a TypeError at the first hash of the forEach, landing in the catch
that marks the batch uncached and proceeding to the next batch without the
delay. -/
def rdLoop (env : List String → FetchOutcome JVal) :
    List (List String) → JMap RdStatus → List RdEvent →
      JMap RdStatus × List RdEvent
  | [], acc, tr => (acc, tr)
  | batch :: rest, acc, tr =>
    match env batch with
    | .throws =>
        rdLoop env rest
          (acc.writeAll batch (fun h => jsToLower h) (fun _ => rdUncached))
          (tr ++ [.request batch])
    | .response ok body =>
        if ok && body.isNull then
          rdLoop env rest
            (acc.writeAll batch (fun h => jsToLower h) (fun _ => rdUncached))
            (tr ++ [.request batch])
        else
          let acc' :=
            if ok then
              acc.writeAll batch (fun h => jsToLower h) (rdSuccessStatus body)
            else acc.writeAll batch (fun h => jsToLower h) (fun _ => rdUncached)
          let tr' := tr ++ [.request batch] ++
            (if rest.isEmpty then [] else [.delayMs 500])
          rdLoop env rest acc' tr'

namespace RealDebrid

/-- RealDebrid.checkCache: guard for an empty input, then the batch loop.
env maps each issued batch (which determines the request URL) to the outcome
of its fetch. -/
def checkCache (hashes : List String) (env : List String → FetchOutcome JVal) :
    JMap RdStatus × List RdEvent :=
  if hashes.isEmpty then ([], []) else rdLoop env (rdChunks hashes) [] []

end RealDebrid

-- =====================================================
-- Torbox.checkCache
-- =====================================================

/-- One entry of the Torbox checkCache result object. -/
structure TbStatus where
  cached : Bool
  files : JVal
  downloadLink : Option String
  service : String

/-- The entry written for every hash in the catch branch. -/
def tbUncached : TbStatus :=
  { cached := false, files := .jarr [], downloadLink := none
    service := "Torbox" }

/-- The entry written on the success branch: cacheInfo is
data.data[hashLower]; cached is the double negation of cacheInfo, so a
present but falsy value counts as not cached; files is cacheInfo?.files or
the empty array. -/
def tbStatusFor (dataField : Option JVal) (h : String) : TbStatus :=
  let cacheInfo := jsGet dataField (jsToLower h)
  { cached := jsTruthy cacheInfo
    files := jsOrElseArr (jsOptChain cacheInfo "files")
    downloadLink := none, service := "Torbox" }

namespace Torbox

/-- Torbox.checkCache: one request for all hashes.  A non-2xx response is
turned into a throw inside the try, so it lands in the catch branch
together with transport errors; on a 2xx body of JSON null the access
data.success raises a TypeError, also landing in the catch that marks every
hash uncached; a non-null 2xx body whose success or data field is falsy
leaves the result object empty. -/
def checkCache (hashes : List String) (env : FetchOutcome JVal) :
    JMap TbStatus :=
  if hashes.isEmpty then [] else
  match env with
  | .throws =>
      JMap.writeAll [] hashes (fun h => jsToLower h) (fun _ => tbUncached)
  | .response ok body =>
      if !ok then
        JMap.writeAll [] hashes (fun h => jsToLower h) (fun _ => tbUncached)
      else if body.isNull then
        JMap.writeAll [] hashes (fun h => jsToLower h) (fun _ => tbUncached)
      else if jsTruthy (body.getField "success") &&
              jsTruthy (body.getField "data") then
        JMap.writeAll [] hashes (fun h => jsToLower h)
          (tbStatusFor (body.getField "data"))
      else []

end Torbox

-- =====================================================
-- AllDebrid.checkCache
-- =====================================================

/-- One entry of the AllDebrid checkCache result object. -/
structure AdStatus where
  cached : Bool
  files : JVal
  downloadLink : Option String
  service : String

/-- The entry written for every hash in the catch branch. -/
def adUncached : AdStatus :=
  { cached := false, files := .jarr [], downloadLink := none
    service := "AllDebrid" }

/-- The entry built from one element of data.data.magnets: cached exactly
when the instant field is strictly equal to true; files is magnet.files or
the empty array. -/
def adStatusFor (magnet : JVal) : AdStatus :=
  let isCached :=
    match magnet.getField "instant" with
    | some (.jbool true) => true
    | _ => false
  { cached := isCached, files := jsOrElseArr (magnet.getField "files")
    downloadLink := none, service := "AllDebrid" }

/-- Result of the forEach over the magnets array: either it completes, or a
TypeError is thrown part-way (hashes[index] is undefined and toLowerCase is
called on it, or the element is null and a property of null is read),
carrying the partially written result object into the catch branch. -/
inductive AdIter where
  | done (m : JMap AdStatus) : AdIter
  | thrown (m : JMap AdStatus) : AdIter

/-- The forEach((magnet, index) => ...) loop of AllDebrid.checkCache. -/
def adForEach (hashes : List String) :
    List JVal → Nat → JMap AdStatus → AdIter
  | [], _, m => .done m
  | magnet :: rest, idx, m =>
    match hashes[idx]? with
    | none => .thrown m
    | some h =>
        if magnet.isNull then .thrown m
        else adForEach hashes rest (idx + 1)
          (m.set (jsToLower h) (adStatusFor magnet))

namespace AllDebrid

/-- The strict comparison data.status === 'success' of the AllDebrid
success guard. -/
def adStatusOk (body : JVal) : Bool :=
  match body.getField "status" with
  | some (.jstr s) => s == "success"
  | _ => false

/-- AllDebrid.checkCache: one request carrying all hashes.  A non-2xx
response becomes a throw inside the try; on a 2xx body of JSON null the
access data.status raises a TypeError, landing in the catch that marks
every hash uncached; on a non-null 2xx body the success branch runs only
when status is strictly the string success and data and data.data.magnets
are truthy; a truthy non-array magnets value makes the forEach call throw,
and any throw inside the try overwrites every hash with the uncached entry
in the catch branch. -/
def checkCache (hashes : List String) (env : FetchOutcome JVal) :
    JMap AdStatus :=
  if hashes.isEmpty then [] else
  match env with
  | .throws =>
      JMap.writeAll [] hashes (fun h => jsToLower h) (fun _ => adUncached)
  | .response ok body =>
      if !ok then
        JMap.writeAll [] hashes (fun h => jsToLower h) (fun _ => adUncached)
      else if body.isNull then
        JMap.writeAll [] hashes (fun h => jsToLower h) (fun _ => adUncached)
      else
        let dataField := body.getField "data"
        let magnetsField := jsGet dataField "magnets"
        if adStatusOk body && (jsTruthy dataField && jsTruthy magnetsField) then
          match magnetsField with
          | some (.jarr magnets) =>
              match adForEach hashes magnets 0 [] with
              | .done m => m
              | .thrown m =>
                  m.writeAll hashes (fun h => jsToLower h) (fun _ => adUncached)
          | _ =>
              JMap.writeAll [] hashes (fun h => jsToLower h) (fun _ => adUncached)
        else []

end AllDebrid

-- =====================================================
-- checkAllDebridCaches
-- =====================================================

/-- Outcome of awaiting one provider promise: it resolves with a value or
rejects. -/
inductive CallOutcome (α : Type) where
  | resolves (value : α) : CallOutcome α
  | rejects : CallOutcome α

/-- The flags and instance presence of the services object produced by
createDebridServices, as destructured by checkAllDebridCaches. -/
structure DebridServices where
  useRealDebrid : Bool
  realdebridPresent : Bool
  useTorbox : Bool
  torboxPresent : Bool
  useAllDebrid : Bool
  alldebridPresent : Bool

/-- The aggregated result object, initialised with an empty map per
provider. -/
structure CacheResults where
  realdebrid : JMap RdStatus
  torbox : JMap TbStatus
  alldebrid : JMap AdStatus

/-- checkAllDebridCaches: each enabled provider (flag set and instance
present) is invoked; a resolving call overwrites that provider entry, a
rejecting call is caught and logged so the entry keeps its initial empty
map; disabled providers are never invoked.  The second component lists the
providers whose checkCache was invoked. -/
def checkAllDebridCaches (services : DebridServices)
    (rdCall : CallOutcome (JMap RdStatus))
    (tbCall : CallOutcome (JMap TbStatus))
    (adCall : CallOutcome (JMap AdStatus)) : CacheResults × List String :=
  let rdEnabled := services.useRealDebrid && services.realdebridPresent
  let tbEnabled := services.useTorbox && services.torboxPresent
  let adEnabled := services.useAllDebrid && services.alldebridPresent
  let rd := if rdEnabled then
      match rdCall with
      | .resolves v => v
      | .rejects => []
    else []
  let tb := if tbEnabled then
      match tbCall with
      | .resolves v => v
      | .rejects => []
    else []
  let ad := if adEnabled then
      match adCall with
      | .resolves v => v
      | .rejects => []
    else []
  let invoked :=
    (if rdEnabled then ["realdebrid"] else []) ++
      (if tbEnabled then ["torbox"] else []) ++
        (if adEnabled then ["alldebrid"] else [])
  ({ realdebrid := rd, torbox := tb, alldebrid := ad }, invoked)

-- =====================================================
-- id-converter.cjs
-- =====================================================

/-- One element of the movie_results array of a TMDb find response. -/
structure MovieResult where
  id : Int
deriving DecidableEq, Repr

/-- One element of the tv_results array of a TMDb find response. -/
structure TvResult where
  id : Int
deriving DecidableEq, Repr

/-- One element of the tv_episode_results array: it carries its own id and
the show_id of the parent series. -/
structure TvEpisodeResult where
  id : Int
  show_id : Int
deriving DecidableEq, Repr

/-- Parsed body of the TMDb find endpoint; a missing or empty category
array is modelled as the empty list, on which the length > 0 guard of the
source fails either way. -/
structure FindBody where
  movie_results : List MovieResult
  tv_results : List TvResult
  tv_episode_results : List TvEpisodeResult

/-- The external_ids object of a TMDb details response; a missing or falsy
imdb_id is modelled as none or the empty string. -/
structure ExternalIds where
  imdb_id : Option String
deriving DecidableEq, Repr

/-- Parsed body of the TMDb details endpoint with append_to_response set to
external_ids. -/
structure DetailsBody where
  external_ids : Option ExternalIds
deriving DecidableEq, Repr

/-- The remote requests the id converter can issue: the find lookup by IMDb
id, and the details lookup by media type and TMDb id. -/
inductive TmdbRequest where
  | find (imdbId : String) : TmdbRequest
  | details (mediaType : String) (tmdbId : Int) : TmdbRequest
deriving DecidableEq, Repr

/-- Return shape of imdbToTmdb. -/
structure ImdbToTmdbResult where
  tmdbId : Option Int
  type : Option String
deriving DecidableEq, Repr

/-- JavaScript truthiness of an optional string argument (undefined, null
and the empty string are falsy). -/
def jsStrTruthy : Option String → Bool
  | none => false
  | some s => s != ""

/-- JavaScript truthiness of an optional numeric argument (undefined, null
and 0 are falsy). -/
def jsIntTruthy : Option Int → Bool
  | none => false
  | some n => n != 0

/-- imdbToTmdb: validates the id before any request, then inspects the find
response categories in the order movie_results, tv_results,
tv_episode_results, taking element 0 of the first non-empty one; an episode
match contributes its show_id.  Any HTTP failure or thrown error yields the
null result.  The second component lists the requests issued. -/
def imdbToTmdb (imdbId : Option String) (env : FetchOutcome FindBody) :
    ImdbToTmdbResult × List TmdbRequest :=
  if !(jsStrTruthy imdbId) || !(jsStartsWith (imdbId.getD "") "tt") then
    ({ tmdbId := none, type := none }, [])
  else
    let reqs : List TmdbRequest := [.find (imdbId.getD "")]
    match env with
    | .throws => ({ tmdbId := none, type := none }, reqs)
    | .response ok body =>
      if !ok then ({ tmdbId := none, type := none }, reqs)
      else
        match body.movie_results with
        | m :: _ => ({ tmdbId := some m.id, type := some "movie" }, reqs)
        | [] =>
          match body.tv_results with
          | t :: _ => ({ tmdbId := some t.id, type := some "series" }, reqs)
          | [] =>
            match body.tv_episode_results with
            | e :: _ =>
                ({ tmdbId := some e.show_id, type := some "series" }, reqs)
            | [] => ({ tmdbId := none, type := none }, reqs)

/-- tmdbToImdb: validates both arguments before any request, maps the kind
series to the media-type token tv and every other kind to movie, and
extracts external_ids.imdb_id from the details response when truthy.  The
second component lists the requests issued. -/
def tmdbToImdb (tmdbId : Option Int) (type : Option String)
    (env : FetchOutcome DetailsBody) : Option String × List TmdbRequest :=
  if !(jsIntTruthy tmdbId) || !(jsStrTruthy type) then (none, [])
  else
    let mediaType := if type = some "series" then "tv" else "movie"
    let reqs : List TmdbRequest := [.details mediaType (tmdbId.getD 0)]
    match env with
    | .throws => (none, reqs)
    | .response ok body =>
      if !ok then (none, reqs)
      else
        match body.external_ids with
        | some ext => if jsStrTruthy ext.imdb_id then (ext.imdb_id, reqs)
                      else (none, reqs)
        | none => (none, reqs)

/-- The identifier pair returned by completeIds. -/
structure IdPair where
  imdbId : Option String
  tmdbId : Option Int
deriving DecidableEq, Repr

/-- completeIds: both ids present returns the pair as-is with no request;
only the IMDb id present runs the forward lookup; only the TMDb id present
runs the reverse lookup; neither present returns the null pair.  The second
component lists the requests issued. -/
def completeIds (imdbId : Option String) (tmdbId : Option Int)
    (type : Option String) (findEnv : FetchOutcome FindBody)
    (detailsEnv : FetchOutcome DetailsBody) : IdPair × List TmdbRequest :=
  if jsStrTruthy imdbId && jsIntTruthy tmdbId then
    ({ imdbId := imdbId, tmdbId := tmdbId }, [])
  else if jsStrTruthy imdbId && !(jsIntTruthy tmdbId) then
    let r := imdbToTmdb imdbId findEnv
    ({ imdbId := imdbId, tmdbId := r.1.tmdbId }, r.2)
  else if !(jsStrTruthy imdbId) && jsIntTruthy tmdbId then
    let r := tmdbToImdb tmdbId type detailsEnv
    ({ imdbId := r.1, tmdbId := tmdbId }, r.2)
  else ({ imdbId := none, tmdbId := none }, [])

-- =====================================================
-- Concrete material used by claim statements
-- =====================================================

/-- Projection extracting the issued batch requests from an event trace. -/
def rdReqOf : RdEvent → Option (List String)
  | .request batch => some batch
  | .delayMs _ => none

/-- A concrete input of 85 pairwise distinct hashes. -/
def hashes85 : List String := (List.range 85).map (fun n => "a" ++ Nat.repr n)

/-- A batch environment whose first batch (the one starting with a0) fails
with a thrown transport error while every other batch receives an empty 2xx
response. -/
def rdCexEnv (batch : List String) : FetchOutcome JVal :=
  if batch.head? == some "a0" then .throws else .response true (.jobj [])

/-- The event trace the RealDebrid loop produces over a batch list when no
request throws: one request per batch with a 500ms delay between
consecutive batches and none after the last. -/
def rdExpectedTrace : List (List String) → List RdEvent
  | [] => []
  | [c] => [.request c]
  | c :: c2 :: rest => .request c :: .delayMs 500 :: rdExpectedTrace (c2 :: rest)

-- =====================================================
-- Lemmas about the JavaScript object model
-- =====================================================

theorem JMap.writeAll_nil {V α : Type} (m : JMap V) (key : α → String)
    (val : α → V) : m.writeAll [] key val = m := rfl

theorem JMap.writeAll_cons {V α : Type} (m : JMap V) (x : α) (t : List α)
    (key : α → String) (val : α → V) :
    m.writeAll (x :: t) key val = (m.set (key x) (val x)).writeAll t key val :=
  rfl

theorem JMap.get_set {V : Type} (m : JMap V) (k k' : String) (v : V) :
    (m.set k v).get k' = if k = k' then some v else m.get k' := by
  unfold JMap.set JMap.get
  rw [List.foldl_append]
  by_cases h : k = k' <;> simp [h]

theorem JMap.get_writeAll_notMem {V α : Type} (m : JMap V) (xs : List α)
    (key : α → String) (val : α → V) (k : String) (hk : k ∉ xs.map key) :
    (m.writeAll xs key val).get k = m.get k := by
  induction xs generalizing m with
  | nil => rfl
  | cons x t ih =>
    simp only [List.map_cons, List.mem_cons, not_or] at hk
    rw [JMap.writeAll_cons, ih _ hk.2, JMap.get_set,
      if_neg (fun h => hk.1 h.symm)]

theorem JMap.get_writeAll_const {V α : Type} (m : JMap V) (xs : List α)
    (key : α → String) (c : V) (k : String) (hk : k ∈ xs.map key) :
    (m.writeAll xs key (fun _ => c)).get k = some c := by
  induction xs generalizing m with
  | nil => simp at hk
  | cons x t ih =>
    rw [JMap.writeAll_cons]
    rw [List.map_cons] at hk
    by_cases ht : k ∈ t.map key
    · exact ih _ ht
    · have hx : key x = k := by
        rcases List.mem_cons.mp hk with h | h
        · exact h.symm
        · exact absurd h ht
      rw [JMap.get_writeAll_notMem _ _ _ _ _ ht, JMap.get_set, if_pos hx]

theorem JMap.get_writeAll_nodup {V α : Type} (m : JMap V) (xs : List α)
    (key : α → String) (val : α → V) (x : α)
    (hnd : (xs.map key).Nodup) (hx : x ∈ xs) :
    (m.writeAll xs key val).get (key x) = some (val x) := by
  induction xs generalizing m with
  | nil => simp at hx
  | cons y t ih =>
    rw [List.map_cons, List.nodup_cons] at hnd
    rw [JMap.writeAll_cons]
    rcases List.mem_cons.mp hx with rfl | hxt
    · rw [JMap.get_writeAll_notMem _ _ _ _ _ hnd.1, JMap.get_set, if_pos rfl]
    · exact ih _ hnd.2 hxt

theorem JMap.isSome_get_set {V : Type} (m : JMap V) (k k' : String) (v : V)
    (h : (m.get k').isSome) : ((m.set k v).get k').isSome := by
  rw [JMap.get_set]
  split <;> simp [h]

theorem JMap.isSome_get_writeAll {V α : Type} (m : JMap V) (xs : List α)
    (key : α → String) (val : α → V) (k : String) (h : (m.get k).isSome) :
    ((m.writeAll xs key val).get k).isSome := by
  induction xs generalizing m with
  | nil => exact h
  | cons x t ih =>
    rw [JMap.writeAll_cons]
    exact ih _ (JMap.isSome_get_set _ _ _ _ h)

theorem JMap.isSome_get_writeAll_mem {V α : Type} (m : JMap V) (xs : List α)
    (key : α → String) (val : α → V) (k : String) (hk : k ∈ xs.map key) :
    ((m.writeAll xs key val).get k).isSome := by
  induction xs generalizing m with
  | nil => simp at hk
  | cons x t ih =>
    rw [JMap.writeAll_cons]
    rw [List.map_cons] at hk
    by_cases ht : k ∈ t.map key
    · exact ih _ ht
    · have hx : key x = k := by
        rcases List.mem_cons.mp hk with h | h
        · exact h.symm
        · exact absurd h ht
      exact JMap.isSome_get_writeAll _ _ _ _ _
        (by rw [JMap.get_set, if_pos hx]; rfl)

theorem JMap.get_writeAll_isSome_inv {V α : Type} (m : JMap V) (xs : List α)
    (key : α → String) (val : α → V) (k : String)
    (h : ((m.writeAll xs key val).get k).isSome) :
    (m.get k).isSome ∨ k ∈ xs.map key := by
  induction xs generalizing m with
  | nil => exact Or.inl h
  | cons x t ih =>
    rw [JMap.writeAll_cons] at h
    rcases ih _ h with h' | h'
    · rw [JMap.get_set] at h'
      by_cases hx : key x = k
      · right; simp [hx]
      · left; rwa [if_neg hx] at h'
    · right; simp [h']

-- =====================================================
-- Lemmas about the RealDebrid batch loop
-- =====================================================

theorem rdChunksAux_congr : ∀ (f1 f2 : Nat) (xs : List String),
    xs.length ≤ f1 → xs.length ≤ f2 → rdChunksAux f1 xs = rdChunksAux f2 xs
  | f1, f2, [], _, _ => by
      cases f1 <;> cases f2 <;> rfl
  | f1, f2, x :: t, h1, h2 => by
      cases f1 with
      | zero => simp at h1
      | succ g1 =>
          cases f2 with
          | zero => simp at h2
          | succ g2 =>
              simp only [rdChunksAux]
              congr 1
              apply rdChunksAux_congr
              · simp only [List.length_drop, List.length_cons]
                simp only [List.length_cons] at h1
                omega
              · simp only [List.length_drop, List.length_cons]
                simp only [List.length_cons] at h2
                omega

theorem rdChunks_nil : rdChunks [] = [] := rfl

theorem rdChunks_ne_nil (xs : List String) (hxs : xs ≠ []) :
    rdChunks xs = xs.take 40 :: rdChunks (xs.drop 40) := by
  cases xs with
  | nil => exact absurd rfl hxs
  | cons x t =>
      show rdChunksAux (x :: t).length (x :: t) = _
      simp only [List.length_cons, rdChunksAux]
      congr 1
      apply rdChunksAux_congr
      · simp only [List.length_drop, List.length_cons]
        omega
      · exact le_rfl

theorem rdChunks_cons (h : String) (t : List String) :
    rdChunks (h :: t) = ((h :: t).take 40) :: rdChunks ((h :: t).drop 40) :=
  rdChunks_ne_nil (h :: t) (List.cons_ne_nil h t)

theorem rdChunks_join_le : ∀ (n : Nat) (xs : List String), xs.length ≤ n →
    (rdChunks xs).flatten = xs
  | _, [], _ => by simp [rdChunks_nil]
  | 0, x :: t, h => by simp at h
  | n + 1, x :: t, h => by
      rw [rdChunks_cons, List.flatten_cons,
        rdChunks_join_le n ((x :: t).drop 40) (by simp at h ⊢; omega)]
      exact List.take_append_drop _ _

theorem rdChunks_join (xs : List String) : (rdChunks xs).flatten = xs :=
  rdChunks_join_le xs.length xs le_rfl

theorem isEmpty_false_of_mem {h : String} {hashes : List String}
    (hh : h ∈ hashes) : hashes.isEmpty = false := by
  cases hashes with
  | nil => simp at hh
  | cons a t => rfl

theorem toLower_mem_map {h : String} {hashes : List String} (hh : h ∈ hashes) :
    jsToLower h ∈ hashes.map (fun h => jsToLower h) :=
  List.mem_map.mpr ⟨h, hh, rfl⟩

theorem JVal.eq_jnull_of_isNull {v : JVal} (h : v.isNull = true) :
    v = .jnull := by
  cases v with
  | jnull => rfl
  | jbool b => exact absurd h (by simp [JVal.isNull])
  | jnum n => exact absurd h (by simp [JVal.isNull])
  | jstr s => exact absurd h (by simp [JVal.isNull])
  | jarr elems => exact absurd h (by simp [JVal.isNull])
  | jobj fields => exact absurd h (by simp [JVal.isNull])

theorem JVal.isNull_false_of_getField_some {v : JVal} {k : String}
    {x : JVal} (h : v.getField k = some x) : v.isNull = false := by
  cases v with
  | jobj fields => rfl
  | jnull => exact absurd h (by simp [JVal.getField])
  | jbool b => exact absurd h (by simp [JVal.getField])
  | jnum n => exact absurd h (by simp [JVal.getField])
  | jstr s => exact absurd h (by simp [JVal.getField])
  | jarr elems => exact absurd h (by simp [JVal.getField])

theorem JVal.isNull_false_of_getField_truthy {v : JVal} {k : String}
    (h : jsTruthy (v.getField k) = true) : v.isNull = false := by
  cases hf : v.getField k with
  | none => rw [hf] at h; exact absurd h (by simp [jsTruthy])
  | some x => exact JVal.isNull_false_of_getField_some hf

/-- One step of the RealDebrid loop: whatever the outcome of the head
batch, the loop records one request for it (followed by at most one delay
event) and writes one entry per batch hash before continuing with the
remaining batches. -/
theorem rdLoop_cons_eq (env : List String → FetchOutcome JVal)
    (c : List String) (rest : List (List String)) (acc : JMap RdStatus)
    (tr : List RdEvent) :
    ∃ (val : String → RdStatus) (ev : List RdEvent),
      rdLoop env (c :: rest) acc tr =
        rdLoop env rest (acc.writeAll c (fun h => jsToLower h) val)
          (tr ++ .request c :: ev) ∧
      (ev = [] ∨ ev = [.delayMs 500]) := by
  cases henv : env c with
  | throws =>
      exact ⟨fun _ => rdUncached, [], by simp [rdLoop, henv], Or.inl rfl⟩
  | response ok body =>
      cases hcond : (ok && body.isNull) with
      | true =>
          refine ⟨fun _ => rdUncached, [], ?_, Or.inl rfl⟩
          simp [rdLoop, henv, hcond]
      | false =>
          refine ⟨(if ok then rdSuccessStatus body else fun _ => rdUncached),
            (if rest.isEmpty then [] else [.delayMs 500]), ?_, ?_⟩
          · have hacc : (if ok then
                  acc.writeAll c (fun h => jsToLower h) (rdSuccessStatus body)
                else acc.writeAll c (fun h => jsToLower h)
                  (fun _ => rdUncached)) =
                acc.writeAll c (fun h => jsToLower h)
                  (if ok then rdSuccessStatus body else fun _ => rdUncached)
                := by
              cases ok <;> rfl
            simp only [rdLoop, henv, hcond, Bool.false_eq_true, if_false,
              hacc, List.append_assoc]
            rfl
          · cases rest.isEmpty <;> simp

theorem rdLoop_get_notMem (env : List String → FetchOutcome JVal)
    (cs : List (List String)) (acc : JMap RdStatus) (tr : List RdEvent)
    (k : String) (hk : k ∉ cs.flatten.map jsToLower) :
    ((rdLoop env cs acc tr).1).get k = acc.get k := by
  induction cs generalizing acc tr with
  | nil => rfl
  | cons c rest ih =>
    have hk1 : k ∉ c.map jsToLower := by
      simp only [List.flatten_cons, List.map_append, List.mem_append] at hk
      tauto
    have hk2 : k ∉ rest.flatten.map jsToLower := by
      simp only [List.flatten_cons, List.map_append, List.mem_append] at hk
      tauto
    obtain ⟨val, ev, heq, -⟩ := rdLoop_cons_eq env c rest acc tr
    rw [heq, ih _ _ hk2, JMap.get_writeAll_notMem _ _ _ _ _ hk1]

theorem rdLoop_isSome_mono (env : List String → FetchOutcome JVal)
    (cs : List (List String)) (acc : JMap RdStatus) (tr : List RdEvent)
    (k : String) (h : (acc.get k).isSome) :
    (((rdLoop env cs acc tr).1).get k).isSome := by
  induction cs generalizing acc tr with
  | nil => exact h
  | cons c rest ih =>
    obtain ⟨val, ev, heq, -⟩ := rdLoop_cons_eq env c rest acc tr
    rw [heq]
    exact ih _ _ (JMap.isSome_get_writeAll _ _ _ _ _ h)

theorem rdLoop_isSome_join (env : List String → FetchOutcome JVal)
    (cs : List (List String)) (acc : JMap RdStatus) (tr : List RdEvent)
    (h : String) (hh : h ∈ cs.flatten) :
    (((rdLoop env cs acc tr).1).get (jsToLower h)).isSome := by
  induction cs generalizing acc tr with
  | nil => simp at hh
  | cons c rest ih =>
    rw [List.flatten_cons, List.mem_append] at hh
    obtain ⟨val, ev, heq, -⟩ := rdLoop_cons_eq env c rest acc tr
    rw [heq]
    rcases hh with hc | hrest
    · exact rdLoop_isSome_mono _ _ _ _ _
        (JMap.isSome_get_writeAll_mem _ _ _ _ _ (toLower_mem_map hc))
    · exact ih _ _ hrest

theorem rdLoop_isSome_inv (env : List String → FetchOutcome JVal)
    (cs : List (List String)) (acc : JMap RdStatus) (tr : List RdEvent)
    (k : String) (h : (((rdLoop env cs acc tr).1).get k).isSome) :
    (acc.get k).isSome ∨ k ∈ cs.flatten.map jsToLower := by
  induction cs generalizing acc tr with
  | nil => exact Or.inl h
  | cons c rest ih =>
    obtain ⟨val, ev, heq, -⟩ := rdLoop_cons_eq env c rest acc tr
    rw [heq] at h
    rcases ih _ _ h with h' | h'
    · rcases JMap.get_writeAll_isSome_inv _ _ _ _ _ h' with h'' | h''
      · exact Or.inl h''
      · right
        simp only [List.flatten_cons, List.map_append, List.mem_append]
        exact Or.inl h''
    · right
      simp only [List.flatten_cons, List.map_append, List.mem_append]
      exact Or.inr h'

theorem rdLoop_failedBatch (env : List String → FetchOutcome JVal)
    (cs : List (List String)) (acc : JMap RdStatus) (tr : List RdEvent)
    (c : List String) (h : String)
    (hnd : (cs.flatten.map jsToLower).Nodup) (hc : c ∈ cs) (hh : h ∈ c)
    (hfail : env c = .throws ∨ ∃ b, env c = .response false b) :
    ((rdLoop env cs acc tr).1).get (jsToLower h) = some rdUncached := by
  induction cs generalizing acc tr with
  | nil => simp at hc
  | cons c' rest ih =>
    rw [List.flatten_cons, List.map_append, List.nodup_append] at hnd
    rcases List.mem_cons.mp hc with rfl | hcr
    · have hmem : jsToLower h ∈ c.map jsToLower :=
        List.mem_map.mpr ⟨h, hh, rfl⟩
      have hnot : jsToLower h ∉ rest.flatten.map jsToLower :=
        fun hmem' => hnd.2.2 hmem hmem'
      rcases hfail with henv | ⟨b, henv⟩
      · simp only [rdLoop, henv]
        rw [rdLoop_get_notMem _ _ _ _ _ hnot,
          JMap.get_writeAll_const _ _ _ _ _ hmem]
      · simp only [rdLoop, henv, Bool.false_and, Bool.false_eq_true,
          if_false]
        rw [rdLoop_get_notMem _ _ _ _ _ hnot,
          JMap.get_writeAll_const _ _ _ _ _ hmem]
    · obtain ⟨val, ev, heq, -⟩ := rdLoop_cons_eq env c' rest acc tr
      rw [heq]
      exact ih _ _ hnd.2.1 hcr

theorem rdLoop_requests (env : List String → FetchOutcome JVal)
    (cs : List (List String)) (acc : JMap RdStatus) (tr : List RdEvent) :
    ((rdLoop env cs acc tr).2).filterMap rdReqOf =
      tr.filterMap rdReqOf ++ cs := by
  induction cs generalizing acc tr with
  | nil => simp [rdLoop]
  | cons c rest ih =>
    obtain ⟨val, ev, heq, hev⟩ := rdLoop_cons_eq env c rest acc tr
    rw [heq, ih]
    rcases hev with rfl | rfl <;> simp [List.filterMap_append, rdReqOf]

-- =====================================================
-- Lemmas about the AllDebrid forEach loop
-- =====================================================

theorem JVal.isNull_eq_false {v : JVal} (h : v ≠ .jnull) :
    v.isNull = false := by
  cases v with
  | jnull => exact absurd rfl h
  | jbool b => rfl
  | jnum n => rfl
  | jstr s => rfl
  | jarr elems => rfl
  | jobj fields => rfl

theorem adForEach_done (hashes : List String) :
    ∀ (magnets : List JVal) (idx : Nat) (m : JMap AdStatus),
    idx + magnets.length ≤ hashes.length →
    (∀ mg ∈ magnets, mg ≠ JVal.jnull) →
    adForEach hashes magnets idx m =
      .done (m.writeAll ((hashes.drop idx).zip magnets)
        (fun p => jsToLower p.1) (fun p => adStatusFor p.2))
  | [], idx, m, _, _ => by
      simp [adForEach, JMap.writeAll_nil, List.zip_nil_right]
  | mg :: rest, idx, m, hlen, hnn => by
      have hidx : idx < hashes.length := by
        simp only [List.length_cons] at hlen
        omega
      have hget : hashes[idx]? = some hashes[idx] :=
        List.getElem?_eq_getElem hidx
      rw [List.drop_eq_getElem_cons hidx]
      simp only [List.zip_cons_cons, JMap.writeAll_cons]
      simp only [adForEach, hget,
        JVal.isNull_eq_false (hnn mg (List.mem_cons_self _ _)),
        Bool.false_eq_true, if_false]
      have := adForEach_done hashes rest (idx + 1)
        (m.set (jsToLower hashes[idx]) (adStatusFor mg))
        (by simp only [List.length_cons] at hlen; omega)
        (fun mg' h' => hnn mg' (List.mem_cons_of_mem _ h'))
      simpa using this

theorem adForEach_done_mono (hashes : List String) :
    ∀ (magnets : List JVal) (idx : Nat) (m m' : JMap AdStatus) (k : String),
    adForEach hashes magnets idx m = .done m' →
    (m.get k).isSome → (m'.get k).isSome
  | [], idx, m, m', k, hdone, hm => by
      simp only [adForEach, AdIter.done.injEq] at hdone
      exact hdone ▸ hm
  | mg :: rest, idx, m, m', k, hdone, hm => by
      simp only [adForEach] at hdone
      cases hget : hashes[idx]? with
      | none => rw [hget] at hdone; exact absurd hdone (by simp)
      | some h =>
          rw [hget] at hdone
          cases hnull : mg.isNull with
          | true => rw [hnull] at hdone; exact absurd hdone (by simp)
          | false =>
              rw [hnull] at hdone
              simp only [Bool.false_eq_true, if_false] at hdone
              exact adForEach_done_mono hashes rest (idx + 1) _ m' k hdone
                (JMap.isSome_get_set _ _ _ _ hm)

theorem adForEach_cases (hashes : List String) :
    ∀ (magnets : List JVal) (idx : Nat) (m : JMap AdStatus),
    hashes.length ≤ idx + magnets.length →
    (∃ m', adForEach hashes magnets idx m = .thrown m') ∨
    (∃ m', adForEach hashes magnets idx m = .done m' ∧
      ∀ j h, idx ≤ j → hashes[j]? = some h → ((m'.get (jsToLower h))).isSome)
  | [], idx, m, hlen => by
      right
      refine ⟨m, rfl, ?_⟩
      intro j h hij hget
      have : j < hashes.length := (List.getElem?_eq_some.mp hget).1
      simp only [List.length_nil] at hlen
      omega
  | mg :: rest, idx, m, hlen => by
      cases hget : hashes[idx]? with
      | none => exact Or.inl ⟨m, by simp [adForEach, hget]⟩
      | some h =>
          cases hnull : mg.isNull with
          | true => exact Or.inl ⟨m, by simp [adForEach, hget, hnull]⟩
          | false =>
              have hred : adForEach hashes (mg :: rest) idx m =
                  adForEach hashes rest (idx + 1)
                    (m.set (jsToLower h) (adStatusFor mg)) := by
                simp [adForEach, hget, hnull]
              rcases adForEach_cases hashes rest (idx + 1)
                  (m.set (jsToLower h) (adStatusFor mg))
                  (by simp only [List.length_cons] at hlen; omega) with
                ⟨m', hm'⟩ | ⟨m', hm', hprop⟩
              · exact Or.inl ⟨m', hred ▸ hm'⟩
              · right
                refine ⟨m', hred ▸ hm', ?_⟩
                intro j h' hij hget'
                rcases Nat.eq_or_lt_of_le hij with rfl | hlt
                · have : h' = h := by
                    rw [hget] at hget'
                    injection hget' with e
                    exact e.symm
                  subst this
                  exact adForEach_done_mono hashes rest (idx + 1) _ _ _ hm'
                    (by rw [JMap.get_set, if_pos rfl]; rfl)
                · exact hprop j h' hlt hget'

theorem adForEach_get_inv (hashes : List String) :
    ∀ (magnets : List JVal) (idx : Nat) (m m' : JMap AdStatus) (k : String),
    (adForEach hashes magnets idx m = .done m' ∨
      adForEach hashes magnets idx m = .thrown m') →
    (m'.get k).isSome → (m.get k).isSome ∨ k ∈ hashes.map jsToLower
  | [], idx, m, m', k, hiter, hm' => by
      rcases hiter with hd | ht
      · simp only [adForEach, AdIter.done.injEq] at hd
        exact Or.inl (hd ▸ hm')
      · exact absurd ht (by simp [adForEach])
  | mg :: rest, idx, m, m', k, hiter, hm' => by
      cases hget : hashes[idx]? with
      | none =>
          rcases hiter with hd | ht
          · rw [show adForEach hashes (mg :: rest) idx m = .thrown m from
              by simp [adForEach, hget]] at hd
            exact absurd hd (by simp)
          · rw [show adForEach hashes (mg :: rest) idx m = .thrown m from
              by simp [adForEach, hget]] at ht
            injection ht with ht
            exact Or.inl (ht ▸ hm')
      | some h =>
          cases hnull : mg.isNull with
          | true =>
              rcases hiter with hd | ht
              · rw [show adForEach hashes (mg :: rest) idx m = .thrown m from
                  by simp [adForEach, hget, hnull]] at hd
                exact absurd hd (by simp)
              · rw [show adForEach hashes (mg :: rest) idx m = .thrown m from
                  by simp [adForEach, hget, hnull]] at ht
                injection ht with ht
                exact Or.inl (ht ▸ hm')
          | false =>
              have hred : adForEach hashes (mg :: rest) idx m =
                  adForEach hashes rest (idx + 1)
                    (m.set (jsToLower h) (adStatusFor mg)) := by
                simp [adForEach, hget, hnull]
              rw [hred] at hiter
              rcases adForEach_get_inv hashes rest (idx + 1) _ m' k hiter hm'
                with hset | hmem
              · rw [JMap.get_set] at hset
                by_cases hk : jsToLower h = k
                · right
                  refine List.mem_map.mpr ⟨h, List.getElem?_mem hget, hk⟩
                · left; rwa [if_neg hk] at hset
              · exact Or.inr hmem

-- =====================================================
-- Provider-level helper lemmas
-- =====================================================

theorem rdCheckCache_mem_inv (hashes : List String)
    (env : List String → FetchOutcome JVal) (k : String)
    (hk : (((RealDebrid.checkCache hashes env).1).get k).isSome = true) :
    k ∈ hashes.map jsToLower := by
  by_cases hne : hashes.isEmpty
  · rw [show RealDebrid.checkCache hashes env = ([], []) from by
      simp [RealDebrid.checkCache, hne]] at hk
    exact absurd hk (by simp [JMap.get])
  · rw [show RealDebrid.checkCache hashes env =
        rdLoop env (rdChunks hashes) [] [] from by
      simp [RealDebrid.checkCache, hne]] at hk
    rcases rdLoop_isSome_inv _ _ _ _ _ hk with h | h
    · exact absurd h (by simp [JMap.get])
    · rwa [rdChunks_join] at h

theorem tbCheckCache_mem_inv (hashes : List String) (env : FetchOutcome JVal)
    (k : String)
    (hk : ((Torbox.checkCache hashes env).get k).isSome = true) :
    k ∈ hashes.map jsToLower := by
  by_cases hne : hashes.isEmpty
  · rw [show Torbox.checkCache hashes env = [] from by
      simp [Torbox.checkCache, hne]] at hk
    exact absurd hk (by simp [JMap.get])
  · simp only [Torbox.checkCache, hne, Bool.false_eq_true, if_false] at hk
    have step : ∀ val : String → TbStatus,
        (((JMap.writeAll [] hashes (fun h => jsToLower h) val).get k).isSome
          = true) → k ∈ hashes.map jsToLower := by
      intro val hw
      rcases JMap.get_writeAll_isSome_inv _ _ _ _ _ hw with h | h
      · exact absurd h (by simp [JMap.get])
      · exact h
    cases env with
    | throws => exact step _ hk
    | response ok body =>
        cases ok with
        | false =>
            simp only [Bool.not_false, if_true] at hk
            exact step _ hk
        | true =>
            simp only [Bool.not_true, Bool.false_eq_true, if_false] at hk
            split at hk
            · exact step _ hk
            · split at hk
              · exact step _ hk
              · exact absurd hk (by simp [JMap.get])

theorem adCheckCache_mem_inv (hashes : List String) (env : FetchOutcome JVal)
    (k : String)
    (hk : ((AllDebrid.checkCache hashes env).get k).isSome = true) :
    k ∈ hashes.map jsToLower := by
  by_cases hne : hashes.isEmpty
  · rw [show AllDebrid.checkCache hashes env = [] from by
      simp [AllDebrid.checkCache, hne]] at hk
    exact absurd hk (by simp [JMap.get])
  · simp only [AllDebrid.checkCache, hne, Bool.false_eq_true, if_false] at hk
    have step : ∀ (m : JMap AdStatus) (val : String → AdStatus),
        (((m.writeAll hashes (fun h => jsToLower h) val).get k).isSome = true) →
        (m.get k).isSome = true ∨ k ∈ hashes.map jsToLower :=
      fun m val hw => JMap.get_writeAll_isSome_inv _ _ _ _ _ hw
    cases env with
    | throws =>
        rcases step _ _ hk with h | h
        · exact absurd h (by simp [JMap.get])
        · exact h
    | response ok body =>
        cases ok with
        | false =>
            simp only [Bool.not_false, if_true] at hk
            rcases step _ _ hk with h | h
            · exact absurd h (by simp [JMap.get])
            · exact h
        | true =>
            simp only [Bool.not_true, Bool.false_eq_true, if_false] at hk
            split at hk
            · rcases step _ _ hk with h | h
              · exact absurd h (by simp [JMap.get])
              · exact h
            · split at hk
              · split at hk
                · split at hk
                  · rename_i hdone
                    rcases adForEach_get_inv hashes _ _ _ _ _ (Or.inl hdone)
                        hk with h | h
                    · exact absurd h (by simp [JMap.get])
                    · exact h
                  · rename_i hthrown
                    rcases step _ _ hk with h | h
                    · rcases adForEach_get_inv hashes _ _ _ _ _
                          (Or.inr hthrown) h with h' | h'
                      · exact absurd h' (by simp [JMap.get])
                      · exact h'
                    · exact h
                · rcases step _ _ hk with h | h
                  · exact absurd h (by simp [JMap.get])
                  · exact h
              · exact absurd hk (by simp [JMap.get])

theorem tb_throws_get (hashes : List String) (h : String) (hh : h ∈ hashes) :
    (Torbox.checkCache hashes .throws).get (jsToLower h) = some tbUncached := by
  simp only [Torbox.checkCache, isEmpty_false_of_mem hh, Bool.false_eq_true,
    if_false]
  exact JMap.get_writeAll_const _ _ _ _ _ (toLower_mem_map hh)

theorem tb_nonOk_get (hashes : List String) (h : String) (body : JVal)
    (hh : h ∈ hashes) :
    (Torbox.checkCache hashes (.response false body)).get (jsToLower h) =
      some tbUncached := by
  simp only [Torbox.checkCache, isEmpty_false_of_mem hh, Bool.false_eq_true,
    if_false, Bool.not_false, if_true]
  exact JMap.get_writeAll_const _ _ _ _ _ (toLower_mem_map hh)

theorem tb_success_reduce (hashes : List String) (body : JVal)
    (hne : hashes.isEmpty = false)
    (hs : jsTruthy (body.getField "success") = true)
    (hd : jsTruthy (body.getField "data") = true) :
    Torbox.checkCache hashes (.response true body) =
      JMap.writeAll [] hashes (fun h => jsToLower h)
        (tbStatusFor (body.getField "data")) := by
  have hnull : body.isNull = false :=
    JVal.isNull_false_of_getField_truthy hs
  simp only [Torbox.checkCache, hne, Bool.false_eq_true, if_false,
    Bool.not_true, hnull, hs, hd, Bool.and_self, if_true]

theorem tb_flag_false (hashes : List String) (body : JVal)
    (hnull : body.isNull = false)
    (hflag : (jsTruthy (body.getField "success") &&
      jsTruthy (body.getField "data")) = false) :
    Torbox.checkCache hashes (.response true body) = [] := by
  cases hne : hashes.isEmpty with
  | true => simp [Torbox.checkCache, hne]
  | false =>
      simp only [Torbox.checkCache, hne, Bool.false_eq_true, if_false,
        Bool.not_true, hnull, hflag]

theorem ad_throws_get (hashes : List String) (h : String) (hh : h ∈ hashes) :
    (AllDebrid.checkCache hashes .throws).get (jsToLower h) =
      some adUncached := by
  simp only [AllDebrid.checkCache, isEmpty_false_of_mem hh,
    Bool.false_eq_true, if_false]
  exact JMap.get_writeAll_const _ _ _ _ _ (toLower_mem_map hh)

theorem ad_nonOk_get (hashes : List String) (h : String) (body : JVal)
    (hh : h ∈ hashes) :
    (AllDebrid.checkCache hashes (.response false body)).get (jsToLower h) =
      some adUncached := by
  simp only [AllDebrid.checkCache, isEmpty_false_of_mem hh,
    Bool.false_eq_true, if_false, Bool.not_false, if_true]
  exact JMap.get_writeAll_const _ _ _ _ _ (toLower_mem_map hh)

theorem ad_success_reduce (hashes : List String) (body : JVal)
    (magnets : List JVal) (hne : hashes.isEmpty = false)
    (hs : body.getField "status" = some (.jstr "success"))
    (hd : jsTruthy (body.getField "data") = true)
    (hm : jsGet (body.getField "data") "magnets" = some (.jarr magnets)) :
    AllDebrid.checkCache hashes (.response true body) =
      (match adForEach hashes magnets 0 [] with
        | .done m => m
        | .thrown m =>
            m.writeAll hashes (fun h => jsToLower h) (fun _ => adUncached)) := by
  have hnull : body.isNull = false :=
    JVal.isNull_false_of_getField_some hs
  have hstat : AllDebrid.adStatusOk body = true := by
    simp [AllDebrid.adStatusOk, hs]
  have hmt : jsTruthy (jsGet (body.getField "data") "magnets") = true := by
    rw [hm]; rfl
  simp only [AllDebrid.checkCache, hne, Bool.false_eq_true, if_false,
    Bool.not_true, hnull, hstat, hd, hmt, hm, Bool.true_and, Bool.and_true,
    Bool.and_self, if_true]
  rfl

theorem ad_success_total (hashes : List String) (h : String) (body : JVal)
    (magnets : List JVal) (hh : h ∈ hashes)
    (hs : body.getField "status" = some (.jstr "success"))
    (hd : jsTruthy (body.getField "data") = true)
    (hm : jsGet (body.getField "data") "magnets" = some (.jarr magnets))
    (hlen : hashes.length ≤ magnets.length) :
    ((AllDebrid.checkCache hashes (.response true body)).get
      (jsToLower h)).isSome = true := by
  rw [ad_success_reduce hashes body magnets (isEmpty_false_of_mem hh) hs hd hm]
  rcases adForEach_cases hashes magnets 0 [] (by omega) with
    ⟨m', hm'⟩ | ⟨m', hm', hprop⟩
  · rw [hm']
    exact JMap.isSome_get_writeAll_mem _ _ _ _ _ (toLower_mem_map hh)
  · rw [hm']
    obtain ⟨i, hi⟩ := List.mem_iff_getElem?.mp hh
    exact hprop i h (Nat.zero_le i) hi

theorem tb_null_get (hashes : List String) (h : String) (hh : h ∈ hashes) :
    (Torbox.checkCache hashes (.response true .jnull)).get (jsToLower h) =
      some tbUncached := by
  have hred : Torbox.checkCache hashes (.response true .jnull) =
      JMap.writeAll [] hashes (fun h => jsToLower h) (fun _ => tbUncached)
      := by
    simp [Torbox.checkCache, isEmpty_false_of_mem hh, JVal.isNull]
  rw [hred]
  exact JMap.get_writeAll_const _ _ _ _ _ (toLower_mem_map hh)

theorem ad_null_get (hashes : List String) (h : String) (hh : h ∈ hashes) :
    (AllDebrid.checkCache hashes (.response true .jnull)).get (jsToLower h) =
      some adUncached := by
  have hred : AllDebrid.checkCache hashes (.response true .jnull) =
      JMap.writeAll [] hashes (fun h => jsToLower h) (fun _ => adUncached)
      := by
    simp [AllDebrid.checkCache, isEmpty_false_of_mem hh, JVal.isNull]
  rw [hred]
  exact JMap.get_writeAll_const _ _ _ _ _ (toLower_mem_map hh)

theorem ad_flag_false (hashes : List String) (body : JVal)
    (hnull : body.isNull = false)
    (hflag : (AllDebrid.adStatusOk body &&
      (jsTruthy (body.getField "data") &&
        jsTruthy (jsGet (body.getField "data") "magnets"))) = false) :
    AllDebrid.checkCache hashes (.response true body) = [] := by
  cases hne : hashes.isEmpty with
  | true => simp [AllDebrid.checkCache, hne]
  | false =>
      simp only [AllDebrid.checkCache, hne, Bool.false_eq_true, if_false,
        Bool.not_true, hnull, hflag]

-- =====================================================
-- Claims
-- =====================================================

/-- Claim C1 counterexample: the claim states that every input hash appears
as a key of the checkCache result even on a 2xx response whose body's
success flag is not successful, but Torbox.checkCache on input ["ABC"] with
a 2xx body carrying success false (and the lowercased hash present under
data) returns a map with no key for abc, the lowercasing of the input
hash. -/
theorem claim_C1_counterexample :
    jsToLower "ABC" = "abc" ∧
    (Torbox.checkCache ["ABC"]
      (.response true (JVal.jobj [("success", JVal.jbool false),
        ("data", JVal.jobj [("abc", JVal.jbool true)])]))).get "abc" =
      none :=
  ⟨rfl, rfl⟩

/-- Claim C1 (amended): every input hash appears as a key (after
lowercasing) of the checkCache result in every outcome for RealDebrid; for
Torbox and AllDebrid on thrown transport errors, on non-2xx responses and
on a 2xx response whose parsed body is JSON null (where the property access
on the body throws and the catch marks every hash uncached); and on 2xx
responses for Torbox when the body's success and data fields are truthy and
for AllDebrid when status is the string success, data is truthy and the
magnets array has at least one element per input hash.  On a non-null 2xx
body whose success flag (Torbox) or status/data/magnets guard (AllDebrid)
is not satisfied, the provider instead returns the empty map, so the input
hashes do not appear as keys. -/
theorem claim_C1_amended :
    (∀ (hashes : List String) (env : List String → FetchOutcome JVal)
        (h : String), h ∈ hashes →
      (((RealDebrid.checkCache hashes env).1).get (jsToLower h)).isSome
        = true) ∧
    (∀ (hashes : List String) (h : String), h ∈ hashes →
      ((Torbox.checkCache hashes .throws).get (jsToLower h)).isSome
        = true) ∧
    (∀ (hashes : List String) (h : String) (body : JVal), h ∈ hashes →
      ((Torbox.checkCache hashes (.response false body)).get
        (jsToLower h)).isSome = true) ∧
    (∀ (hashes : List String) (h : String), h ∈ hashes →
      ((Torbox.checkCache hashes (.response true .jnull)).get
        (jsToLower h)).isSome = true) ∧
    (∀ (hashes : List String) (h : String) (body : JVal), h ∈ hashes →
      jsTruthy (body.getField "success") = true →
      jsTruthy (body.getField "data") = true →
      ((Torbox.checkCache hashes (.response true body)).get
        (jsToLower h)).isSome = true) ∧
    (∀ (hashes : List String) (body : JVal),
      body.isNull = false →
      (jsTruthy (body.getField "success") &&
        jsTruthy (body.getField "data")) = false →
      Torbox.checkCache hashes (.response true body) = []) ∧
    (∀ (hashes : List String) (h : String), h ∈ hashes →
      ((AllDebrid.checkCache hashes .throws).get (jsToLower h)).isSome
        = true) ∧
    (∀ (hashes : List String) (h : String) (body : JVal), h ∈ hashes →
      ((AllDebrid.checkCache hashes (.response false body)).get
        (jsToLower h)).isSome = true) ∧
    (∀ (hashes : List String) (h : String), h ∈ hashes →
      ((AllDebrid.checkCache hashes (.response true .jnull)).get
        (jsToLower h)).isSome = true) ∧
    (∀ (hashes : List String) (h : String) (body : JVal)
        (magnets : List JVal), h ∈ hashes →
      body.getField "status" = some (.jstr "success") →
      jsTruthy (body.getField "data") = true →
      jsGet (body.getField "data") "magnets" = some (.jarr magnets) →
      hashes.length ≤ magnets.length →
      ((AllDebrid.checkCache hashes (.response true body)).get
        (jsToLower h)).isSome = true) ∧
    (∀ (hashes : List String) (body : JVal),
      body.isNull = false →
      (AllDebrid.adStatusOk body &&
        (jsTruthy (body.getField "data") &&
          jsTruthy (jsGet (body.getField "data") "magnets"))) = false →
      AllDebrid.checkCache hashes (.response true body) = []) := by
  refine ⟨?_, ?_, ?_, ?_, ?_, ?_, ?_, ?_, ?_, ?_, ?_⟩
  · intro hashes env h hh
    rw [show RealDebrid.checkCache hashes env =
        rdLoop env (rdChunks hashes) [] [] from by
      simp [RealDebrid.checkCache, isEmpty_false_of_mem hh]]
    exact rdLoop_isSome_join _ _ _ _ _ (by rw [rdChunks_join]; exact hh)
  · intro hashes h hh
    rw [tb_throws_get hashes h hh]; rfl
  · intro hashes h body hh
    rw [tb_nonOk_get hashes h body hh]; rfl
  · intro hashes h hh
    rw [tb_null_get hashes h hh]; rfl
  · intro hashes h body hh hs hd
    rw [tb_success_reduce hashes body (isEmpty_false_of_mem hh) hs hd]
    exact JMap.isSome_get_writeAll_mem _ _ _ _ _ (toLower_mem_map hh)
  · intro hashes body hnull hflag
    exact tb_flag_false hashes body hnull hflag
  · intro hashes h hh
    rw [ad_throws_get hashes h hh]; rfl
  · intro hashes h body hh
    rw [ad_nonOk_get hashes h body hh]; rfl
  · intro hashes h hh
    rw [ad_null_get hashes h hh]; rfl
  · intro hashes h body magnets hh hs hd hm hlen
    exact ad_success_total hashes h body magnets hh hs hd hm hlen
  · intro hashes body hnull hflag
    exact ad_flag_false hashes body hnull hflag

/-- Witness for claim C1 at a concrete input. -/
theorem claim_C1_witness :
    ("Ab" ∈ ["Ab"]) ∧
    (((RealDebrid.checkCache ["Ab"] (fun _ => .throws)).1).get
      (jsToLower "Ab")).isSome = true :=
  ⟨List.mem_singleton.mpr rfl,
    claim_C1_amended.1 ["Ab"] (fun _ => .throws) "Ab"
      (List.mem_singleton.mpr rfl)⟩

/-- Claim C2: on a non-2xx response or thrown transport error checkCache
degrades instead of raising.  RealDebrid issues every batch regardless of
the outcome of earlier batches (the issued requests are always exactly the
batch list), and maps each hash of a failed batch to the uncached entry;
Torbox and AllDebrid map the whole input to their uncached entries on a
transport error or non-2xx response.  The uncached entries carry cached
false and an empty variants respectively files array, and every embedded
checkCache is a total function, so no outcome raises to the caller. -/
theorem claim_C2 :
    (∀ (hashes : List String) (env : List String → FetchOutcome JVal),
      ((RealDebrid.checkCache hashes env).2).filterMap rdReqOf =
        rdChunks hashes) ∧
    (∀ (hashes : List String) (env : List String → FetchOutcome JVal)
        (c : List String) (h : String),
      (hashes.map jsToLower).Nodup →
      c ∈ rdChunks hashes → h ∈ c →
      (env c = .throws ∨ ∃ b, env c = .response false b) →
      ((RealDebrid.checkCache hashes env).1).get (jsToLower h) =
        some rdUncached) ∧
    (∀ (hashes : List String) (h : String), h ∈ hashes →
      (Torbox.checkCache hashes .throws).get (jsToLower h) = some tbUncached) ∧
    (∀ (hashes : List String) (h : String) (body : JVal), h ∈ hashes →
      (Torbox.checkCache hashes (.response false body)).get (jsToLower h) =
        some tbUncached) ∧
    (∀ (hashes : List String) (h : String), h ∈ hashes →
      (AllDebrid.checkCache hashes .throws).get (jsToLower h) =
        some adUncached) ∧
    (∀ (hashes : List String) (h : String) (body : JVal), h ∈ hashes →
      (AllDebrid.checkCache hashes (.response false body)).get (jsToLower h) =
        some adUncached) ∧
    (rdUncached.cached = false ∧ rdUncached.variants = .jarr []) ∧
    (tbUncached.cached = false ∧ tbUncached.files = .jarr []) ∧
    (adUncached.cached = false ∧ adUncached.files = .jarr []) := by
  refine ⟨?_, ?_, ?_, ?_, ?_, ?_, ⟨rfl, rfl⟩, ⟨rfl, rfl⟩, ⟨rfl, rfl⟩⟩
  · intro hashes env
    cases hashes with
    | nil => simp [RealDebrid.checkCache, rdChunks_nil]
    | cons a t =>
        rw [show RealDebrid.checkCache (a :: t) env =
            rdLoop env (rdChunks (a :: t)) [] [] from by
          simp [RealDebrid.checkCache]]
        rw [rdLoop_requests]
        simp
  · intro hashes env c h hnd hc hh hfail
    have hne : hashes ≠ [] := by
      intro heq
      rw [heq, rdChunks_nil] at hc
      simp at hc
    have hne' : hashes.isEmpty = false := by simpa using hne
    rw [show RealDebrid.checkCache hashes env =
        rdLoop env (rdChunks hashes) [] [] from by
      simp [RealDebrid.checkCache, hne']]
    exact rdLoop_failedBatch env _ [] [] c h
      (by rw [rdChunks_join]; exact hnd) hc hh hfail
  · exact tb_throws_get
  · exact tb_nonOk_get
  · exact ad_throws_get
  · exact ad_nonOk_get

/-- Witness for claim C2 at a concrete input. -/
theorem claim_C2_witness :
    ("An" ∈ ["An"]) ∧
    (Torbox.checkCache ["An"] .throws).get (jsToLower "An") =
      some tbUncached :=
  ⟨List.mem_singleton.mpr rfl,
    claim_C2.2.2.1 ["An"] "An" (List.mem_singleton.mpr rfl)⟩

/-- Claim C9: every key of any checkCache result map is the lowercasing of
some input hash, for each provider and in every outcome, and two input
spellings with the same lowercasing address the same key of the result. -/
theorem claim_C9 :
    (∀ (hashes : List String) (env : List String → FetchOutcome JVal)
        (k : String),
      (((RealDebrid.checkCache hashes env).1).get k).isSome = true →
      ∃ h ∈ hashes, k = jsToLower h) ∧
    (∀ (hashes : List String) (env : FetchOutcome JVal) (k : String),
      ((Torbox.checkCache hashes env).get k).isSome = true →
      ∃ h ∈ hashes, k = jsToLower h) ∧
    (∀ (hashes : List String) (env : FetchOutcome JVal) (k : String),
      ((AllDebrid.checkCache hashes env).get k).isSome = true →
      ∃ h ∈ hashes, k = jsToLower h) ∧
    (∀ (m : JMap RdStatus) (h₁ h₂ : String), jsToLower h₁ = jsToLower h₂ →
      m.get (jsToLower h₁) = m.get (jsToLower h₂)) := by
  refine ⟨?_, ?_, ?_, ?_⟩
  · intro hashes env k hk
    obtain ⟨h, hh, he⟩ :=
      List.mem_map.mp (rdCheckCache_mem_inv hashes env k hk)
    exact ⟨h, hh, he.symm⟩
  · intro hashes env k hk
    obtain ⟨h, hh, he⟩ :=
      List.mem_map.mp (tbCheckCache_mem_inv hashes env k hk)
    exact ⟨h, hh, he.symm⟩
  · intro hashes env k hk
    obtain ⟨h, hh, he⟩ :=
      List.mem_map.mp (adCheckCache_mem_inv hashes env k hk)
    exact ⟨h, hh, he.symm⟩
  · intro m h₁ h₂ he
    rw [he]

/-- Witness for claim C9 at a concrete input. -/
theorem claim_C9_witness :
    ∃ h ∈ (["AB"] : List String), "ab" = jsToLower h :=
  claim_C9.1 ["AB"] (fun _ => .throws) "ab" (by rfl)

theorem rdLoop_trace_noThrow (env : List String → FetchOutcome JVal)
    (cs : List (List String)) (acc : JMap RdStatus) (tr : List RdEvent)
    (hnt : ∀ c ∈ cs, env c ≠ .throws ∧ env c ≠ .response true .jnull) :
    (rdLoop env cs acc tr).2 = tr ++ rdExpectedTrace cs := by
  induction cs generalizing acc tr with
  | nil => simp [rdLoop, rdExpectedTrace]
  | cons c rest ih =>
    cases henv : env c with
    | throws => exact absurd henv (hnt c (List.mem_cons_self _ _)).1
    | response ok body =>
        have hcond : (ok && body.isNull) = false := by
          cases ok with
          | false => rfl
          | true =>
              cases hb : body.isNull with
              | false => rfl
              | true =>
                  refine absurd ?_ (hnt c (List.mem_cons_self _ _)).2
                  rw [henv, JVal.eq_jnull_of_isNull hb]
        simp only [rdLoop, henv, hcond, Bool.false_eq_true, if_false]
        rw [ih _ _ (fun c' hc' => hnt c' (List.mem_cons_of_mem _ hc'))]
        cases rest with
        | nil => simp [rdExpectedTrace]
        | cons c2 rest2 => simp [rdExpectedTrace]

/-- Claim C3 counterexample: on the 85-hash input hashes85 with the batch
environment rdCexEnv, whose first batch throws a transport error while the
later batches receive responses, the delay between the end of the first
batch and the start of the second is skipped (the first two requests are
adjacent in the trace), refuting the claim that a 500ms delay is inserted
between the end of each batch and the start of the next. -/
theorem claim_C3_counterexample :
    (RealDebrid.checkCache hashes85 rdCexEnv).2 =
      [.request (hashes85.take 40),
       .request ((hashes85.drop 40).take 40),
       .delayMs 500,
       .request ((hashes85.drop 40).drop 40)] := by
  rfl

/-- Claim C3 (amended): RealDebrid.checkCache splits its input into
sequential batches of at most 40 hashes in input order; on an input of 85
hashes exactly 3 batches of sizes 40, 40 and 5 are issued, and provided the
try block of no batch throws (no batch request throws a transport error and
no batch receives a 2xx response whose parsed body is JSON null, on which
the response handling itself throws), a 500ms delay is inserted between the
end of each batch and the start of the next and none after the final batch;
a batch whose try block throws in either way is instead followed
immediately by the next batch, with the delay skipped. -/
theorem claim_C3_amended (hashes : List String)
    (env : List String → FetchOutcome JVal) (hlen : hashes.length = 85)
    (hnt : ∀ batch, env batch ≠ .throws ∧
      env batch ≠ .response true JVal.jnull) :
    (RealDebrid.checkCache hashes env).2 =
      [.request (hashes.take 40), .delayMs 500,
       .request ((hashes.drop 40).take 40), .delayMs 500,
       .request ((hashes.drop 40).drop 40)] ∧
    (hashes.take 40).length = 40 ∧
    ((hashes.drop 40).take 40).length = 40 ∧
    ((hashes.drop 40).drop 40).length = 5 ∧
    hashes.take 40 ++ (hashes.drop 40).take 40 ++ (hashes.drop 40).drop 40 =
      hashes := by
  have hne : hashes ≠ [] := by
    intro h
    rw [h] at hlen
    simp at hlen
  have h2 : hashes.drop 40 ≠ [] := by
    intro h
    have := congrArg List.length h
    simp [List.length_drop, hlen] at this
  have h3 : (hashes.drop 40).drop 40 ≠ [] := by
    intro h
    have := congrArg List.length h
    simp [List.length_drop, hlen] at this
  have hchunks : rdChunks hashes =
      [hashes.take 40, (hashes.drop 40).take 40,
        (hashes.drop 40).drop 40] := by
    rw [rdChunks_ne_nil _ hne, rdChunks_ne_nil _ h2, rdChunks_ne_nil _ h3]
    have h4 : ((hashes.drop 40).drop 40).take 40 =
        (hashes.drop 40).drop 40 :=
      List.take_of_length_le (by simp only [List.length_drop, hlen]; omega)
    have h5 : ((hashes.drop 40).drop 40).drop 40 = [] :=
      List.drop_eq_nil_of_le (by simp only [List.length_drop, hlen]; omega)
    rw [h4, h5, rdChunks_nil]
  refine ⟨?_, ?_, ?_, ?_, ?_⟩
  · have hne' : hashes.isEmpty = false := by simpa using hne
    rw [show RealDebrid.checkCache hashes env =
        rdLoop env (rdChunks hashes) [] [] from by
      simp [RealDebrid.checkCache, hne']]
    rw [rdLoop_trace_noThrow env _ [] [] (fun c _ => hnt c), hchunks]
    simp [rdExpectedTrace]
  · simp only [List.length_take, hlen]
    omega
  · simp only [List.length_take, List.length_drop, hlen]
    omega
  · simp only [List.length_drop, hlen]
  · rw [List.append_assoc, List.take_append_drop, List.take_append_drop]

/-- Witness for claim C3 at the concrete input hashes85 with an environment
whose every batch receives a 2xx response with a non-null body. -/
theorem claim_C3_witness :
    hashes85.length = 85 ∧
    (RealDebrid.checkCache hashes85
      (fun _ => .response true (JVal.jobj []))).2 =
      [.request (hashes85.take 40), .delayMs 500,
       .request ((hashes85.drop 40).take 40), .delayMs 500,
       .request ((hashes85.drop 40).drop 40)] :=
  ⟨rfl, (claim_C3_amended hashes85 _ rfl
    (fun _ => ⟨fun h => FetchOutcome.noConfusion h,
      fun h => JVal.noConfusion (FetchOutcome.response.inj h).2⟩)).1⟩

/-- Claim C4 counterexample: the claim says a hash present as a key in the
response's data map maps to cached true regardless of the associated value,
but with the key abc present carrying the value null, Torbox.checkCache
maps abc to cached false (the source computes cached as the double negation
of the looked-up value, which is false on a falsy value). -/
theorem claim_C4_counterexample :
    jsGet ((JVal.jobj [("success", JVal.jbool true),
        ("data", JVal.jobj [("abc", JVal.jnull)])]).getField "data") "abc" =
      some JVal.jnull ∧
    (Torbox.checkCache ["abc"]
      (.response true (JVal.jobj [("success", JVal.jbool true),
        ("data", JVal.jobj [("abc", JVal.jnull)])]))).get "abc" =
      some { cached := false, files := JVal.jarr [], downloadLink := none
             service := "Torbox" } :=
  ⟨rfl, rfl⟩

/-- Claim C4 (amended): on a successful Torbox response (2xx with truthy
success and data), every input hash is mapped to the normalized entry for
the value found under its lowercased form in the data map, and its cached
flag is the JavaScript truthiness of that value: truthy value means cached
true, absent key or falsy value (null, false, 0, empty string) means cached
false. -/
theorem claim_C4_amended (hashes : List String) (h : String) (body : JVal)
    (hh : h ∈ hashes) (hnd : (hashes.map jsToLower).Nodup)
    (hs : jsTruthy (body.getField "success") = true)
    (hd : jsTruthy (body.getField "data") = true) :
    (Torbox.checkCache hashes (.response true body)).get (jsToLower h) =
      some (tbStatusFor (body.getField "data") h) ∧
    (tbStatusFor (body.getField "data") h).cached =
      jsTruthy (jsGet (body.getField "data") (jsToLower h)) := by
  constructor
  · rw [tb_success_reduce hashes body (isEmpty_false_of_mem hh) hs hd]
    exact JMap.get_writeAll_nodup _ _ _ _ h hnd hh
  · rfl

/-- Witness for claim C4 at a concrete input whose data map holds a truthy
value under the lowercased hash. -/
theorem claim_C4_witness :
    (Torbox.checkCache ["Xy"]
      (.response true (JVal.jobj [("success", JVal.jbool true),
        ("data", JVal.jobj [("xy", JVal.jobj [])])]))).get (jsToLower "Xy") =
      some (tbStatusFor ((JVal.jobj [("success", JVal.jbool true),
        ("data", JVal.jobj [("xy", JVal.jobj [])])]).getField "data") "Xy") ∧
    (tbStatusFor ((JVal.jobj [("success", JVal.jbool true),
        ("data", JVal.jobj [("xy", JVal.jobj [])])]).getField "data")
        "Xy").cached =
      jsTruthy (jsGet ((JVal.jobj [("success", JVal.jbool true),
        ("data", JVal.jobj [("xy", JVal.jobj [])])]).getField "data")
        (jsToLower "Xy")) :=
  claim_C4_amended ["Xy"] "Xy" _ (List.mem_singleton.mpr rfl)
    (by simp) rfl rfl

theorem adStatusFor_cached_iff (mg : JVal) :
    (adStatusFor mg).cached = true ↔
      mg.getField "instant" = some (.jbool true) := by
  cases hmg : mg.getField "instant" with
  | none => simp [adStatusFor, hmg]
  | some v =>
      cases v with
      | jbool b => cases b <;> simp [adStatusFor, hmg]
      | jnull => simp [adStatusFor, hmg]
      | jnum n => simp [adStatusFor, hmg]
      | jstr s => simp [adStatusFor, hmg]
      | jarr es => simp [adStatusFor, hmg]
      | jobj fs => simp [adStatusFor, hmg]

theorem ad_success_get_val (hashes : List String) (body : JVal)
    (magnets : List JVal) (i : Nat) (h : String) (mg : JVal)
    (hlen : hashes.length = magnets.length)
    (hnn : ∀ m ∈ magnets, m ≠ JVal.jnull)
    (hnd : (hashes.map jsToLower).Nodup)
    (hs : body.getField "status" = some (.jstr "success"))
    (hd : jsTruthy (body.getField "data") = true)
    (hm : jsGet (body.getField "data") "magnets" = some (.jarr magnets))
    (hih : hashes[i]? = some h) (him : magnets[i]? = some mg) :
    (AllDebrid.checkCache hashes (.response true body)).get (jsToLower h) =
      some (adStatusFor mg) := by
  have hi : i < hashes.length := (List.getElem?_eq_some.mp hih).1
  have hj : i < magnets.length := (List.getElem?_eq_some.mp him).1
  have hne : hashes ≠ [] := by
    intro he
    rw [he] at hi
    simp at hi
  have hne' : hashes.isEmpty = false := by simpa using hne
  rw [ad_success_reduce hashes body magnets hne' hs hd hm,
    adForEach_done hashes magnets 0 [] (by omega) hnn, List.drop_zero]
  have hzlen : i < (hashes.zip magnets).length := by
    rw [List.length_zip]
    omega
  have hzv : (hashes.zip magnets)[i] = (hashes[i], magnets[i]) :=
    List.getElem_zip
  have hhv : hashes[i] = h := by
    rw [List.getElem?_eq_getElem hi] at hih
    exact Option.some.inj hih
  have hmv : magnets[i] = mg := by
    rw [List.getElem?_eq_getElem hj] at him
    exact Option.some.inj him
  have hzmem : (h, mg) ∈ hashes.zip magnets := by
    rw [show ((h, mg) : String × JVal) = (hashes.zip magnets)[i] from by
      rw [hzv, hhv, hmv]]
    exact List.getElem_mem hzlen
  have hkeys : (hashes.zip magnets).map (fun p => jsToLower p.1) =
      hashes.map jsToLower := by
    rw [show (fun p : String × JVal => jsToLower p.1) =
        (jsToLower ∘ Prod.fst) from rfl, ← List.map_map,
      List.map_fst_zip _ _ (le_of_eq hlen)]
  exact JMap.get_writeAll_nodup _ _ _ _ (h, mg) (by rw [hkeys]; exact hnd)
    hzmem

/-- Claim C5: on a successful AllDebrid response the cached status of each
input hash is obtained by pairing the response array element at index i
with the input hash at the same index i (positional zip; every identifying
value inside the element is ignored), and an entry is cached exactly when
its instant field is strictly equal to true. -/
theorem claim_C5 (hashes : List String) (body : JVal) (magnets : List JVal)
    (i : Nat) (h : String) (mg : JVal)
    (hlen : hashes.length = magnets.length)
    (hnn : ∀ m ∈ magnets, m ≠ JVal.jnull)
    (hnd : (hashes.map jsToLower).Nodup)
    (hs : body.getField "status" = some (.jstr "success"))
    (hd : jsTruthy (body.getField "data") = true)
    (hm : jsGet (body.getField "data") "magnets" = some (.jarr magnets))
    (hih : hashes[i]? = some h) (him : magnets[i]? = some mg) :
    (AllDebrid.checkCache hashes (.response true body)).get (jsToLower h) =
      some (adStatusFor mg) ∧
    ((adStatusFor mg).cached = true ↔
      mg.getField "instant" = some (.jbool true)) :=
  ⟨ad_success_get_val hashes body magnets i h mg hlen hnn hnd hs hd hm
      hih him,
    adStatusFor_cached_iff mg⟩

/-- Witness for claim C5 at a concrete two-element input. -/
theorem claim_C5_witness :
    (AllDebrid.checkCache ["AAA", "bbb"]
      (.response true (JVal.jobj [("status", JVal.jstr "success"),
        ("data", JVal.jobj [("magnets", JVal.jarr
          [JVal.jobj [("instant", JVal.jbool true)],
           JVal.jobj []])])]))).get (jsToLower "AAA") =
      some (adStatusFor (JVal.jobj [("instant", JVal.jbool true)])) ∧
    ((adStatusFor (JVal.jobj [("instant", JVal.jbool true)])).cached = true ↔
      (JVal.jobj [("instant", JVal.jbool true)]).getField "instant" =
        some (.jbool true)) :=
  claim_C5 ["AAA", "bbb"] _ [JVal.jobj [("instant", JVal.jbool true)],
      JVal.jobj []] 0 "AAA" (JVal.jobj [("instant", JVal.jbool true)])
    rfl
    (by
      intro m hm e
      subst e
      simp at hm)
    (by decide)
    rfl rfl rfl rfl rfl

/-- Claim C6: completeIds selects one of three paths by input shape: with
both ids present the pair is returned unchanged and no request is issued;
with only the IMDb id tt0111161, a forward lookup whose response carries a
movie match with id 278 yields the pair (tt0111161, 278); with only the
TMDb id 1396 and kind series, a reverse lookup issued with the media-type
token tv whose response carries the external id tt0903747 yields the pair
(tt0903747, 1396). -/
theorem claim_C6 :
    (∀ (a : Option String) (b : Option Int) (type : Option String)
        (findEnv : FetchOutcome FindBody)
        (detailsEnv : FetchOutcome DetailsBody),
      jsStrTruthy a = true → jsIntTruthy b = true →
      completeIds a b type findEnv detailsEnv =
        ({ imdbId := a, tmdbId := b }, [])) ∧
    (completeIds (some "tt0111161") none none
        (.response true
          { movie_results := [{ id := 278 }], tv_results := [],
            tv_episode_results := [] }) .throws =
      ({ imdbId := some "tt0111161", tmdbId := some 278 },
        [.find "tt0111161"])) ∧
    (completeIds none (some 1396) (some "series") .throws
        (.response true
          { external_ids := some { imdb_id := some "tt0903747" } }) =
      ({ imdbId := some "tt0903747", tmdbId := some 1396 },
        [.details "tv" 1396])) := by
  refine ⟨?_, rfl, rfl⟩
  intro a b type findEnv detailsEnv ha hb
  simp [completeIds, ha, hb]

/-- Witness for claim C6 on the both-ids-present path. -/
theorem claim_C6_witness :
    completeIds (some "tt1") (some 7) none .throws .throws =
      ({ imdbId := some "tt1", tmdbId := some 7 }, []) :=
  claim_C6.1 (some "tt1") (some 7) none .throws .throws rfl rfl

/-- Claim C7: the forward lookup inspects the response categories in the
order movie, series, episode, taking the first element of the first
non-empty one; an episode match contributes the show_id of its parent
series while the episode's own id is ignored; and with no match in any
category the result carries a null id instead of an error. -/
theorem claim_C7 :
    (∀ (id : Option String) (body : FindBody) (m : MovieResult)
        (mrest : List MovieResult),
      jsStrTruthy id = true → jsStartsWith (id.getD "") "tt" = true →
      body.movie_results = m :: mrest →
      imdbToTmdb id (.response true body) =
        ({ tmdbId := some m.id, type := some "movie" },
          [.find (id.getD "")])) ∧
    (∀ (id : Option String) (body : FindBody) (t : TvResult)
        (trest : List TvResult),
      jsStrTruthy id = true → jsStartsWith (id.getD "") "tt" = true →
      body.movie_results = [] → body.tv_results = t :: trest →
      imdbToTmdb id (.response true body) =
        ({ tmdbId := some t.id, type := some "series" },
          [.find (id.getD "")])) ∧
    (∀ (id : Option String) (body : FindBody) (e : TvEpisodeResult)
        (erest : List TvEpisodeResult),
      jsStrTruthy id = true → jsStartsWith (id.getD "") "tt" = true →
      body.movie_results = [] → body.tv_results = [] →
      body.tv_episode_results = e :: erest →
      imdbToTmdb id (.response true body) =
        ({ tmdbId := some e.show_id, type := some "series" },
          [.find (id.getD "")])) ∧
    (∀ (id : Option String) (body : FindBody),
      jsStrTruthy id = true → jsStartsWith (id.getD "") "tt" = true →
      body.movie_results = [] → body.tv_results = [] →
      body.tv_episode_results = [] →
      imdbToTmdb id (.response true body) =
        ({ tmdbId := none, type := none }, [.find (id.getD "")])) := by
  refine ⟨?_, ?_, ?_, ?_⟩
  · intro id body m mrest ha hstart h1
    simp [imdbToTmdb, ha, hstart, h1]
  · intro id body t trest ha hstart h1 h2
    simp [imdbToTmdb, ha, hstart, h1, h2]
  · intro id body e erest ha hstart h1 h2 h3
    simp [imdbToTmdb, ha, hstart, h1, h2, h3]
  · intro id body ha hstart h1 h2 h3
    simp [imdbToTmdb, ha, hstart, h1, h2, h3]

/-- Witness for claim C7 on the episode path, with an episode id different
from the show id. -/
theorem claim_C7_witness :
    imdbToTmdb (some "tt0959621")
      (.response true
        { movie_results := [], tv_results := [],
          tv_episode_results := [{ id := 62085, show_id := 1396 }] }) =
      ({ tmdbId := some 1396, type := some "series" },
        [.find "tt0959621"]) :=
  claim_C7.2.2.1 (some "tt0959621") _ { id := 62085, show_id := 1396 } []
    rfl rfl rfl rfl rfl

/-- Claim C8: checkAllDebridCaches returns a record with one entry per
configured provider by construction; a disabled provider (flag unset or
instance absent) contributes the empty map and is never invoked; an
enabled provider whose call resolves contributes exactly its resolved map
whatever the other calls do (so one provider rejecting leaves the others
complete), and an enabled provider whose call rejects keeps the initial
empty map. -/
theorem claim_C8 (services : DebridServices)
    (rdCall : CallOutcome (JMap RdStatus))
    (tbCall : CallOutcome (JMap TbStatus))
    (adCall : CallOutcome (JMap AdStatus)) :
    ((services.useRealDebrid && services.realdebridPresent) = false →
      (checkAllDebridCaches services rdCall tbCall adCall).1.realdebrid = []
        ∧ "realdebrid" ∉
          (checkAllDebridCaches services rdCall tbCall adCall).2) ∧
    ((services.useTorbox && services.torboxPresent) = false →
      (checkAllDebridCaches services rdCall tbCall adCall).1.torbox = [] ∧
      "torbox" ∉ (checkAllDebridCaches services rdCall tbCall adCall).2) ∧
    ((services.useAllDebrid && services.alldebridPresent) = false →
      (checkAllDebridCaches services rdCall tbCall adCall).1.alldebrid = []
        ∧ "alldebrid" ∉
          (checkAllDebridCaches services rdCall tbCall adCall).2) ∧
    (∀ mres, (services.useRealDebrid && services.realdebridPresent) = true →
      rdCall = .resolves mres →
      (checkAllDebridCaches services rdCall tbCall adCall).1.realdebrid =
        mres) ∧
    (∀ mres, (services.useTorbox && services.torboxPresent) = true →
      tbCall = .resolves mres →
      (checkAllDebridCaches services rdCall tbCall adCall).1.torbox =
        mres) ∧
    (∀ mres, (services.useAllDebrid && services.alldebridPresent) = true →
      adCall = .resolves mres →
      (checkAllDebridCaches services rdCall tbCall adCall).1.alldebrid =
        mres) ∧
    ((services.useRealDebrid && services.realdebridPresent) = true →
      rdCall = .rejects →
      (checkAllDebridCaches services rdCall tbCall adCall).1.realdebrid =
        []) := by
  refine ⟨?_, ?_, ?_, ?_, ?_, ?_, ?_⟩
  · intro h
    constructor
    · simp [checkAllDebridCaches, h]
    · simp only [checkAllDebridCaches, h, Bool.false_eq_true, if_false,
        List.nil_append]
      intro hmem
      rcases List.mem_append.mp hmem with hm | hm <;> split at hm <;>
        simp at hm
  · intro h
    constructor
    · simp [checkAllDebridCaches, h]
    · simp only [checkAllDebridCaches, h, Bool.false_eq_true, if_false,
        List.append_nil]
      intro hmem
      rcases List.mem_append.mp hmem with hm | hm <;> split at hm <;>
        simp at hm
  · intro h
    constructor
    · simp [checkAllDebridCaches, h]
    · simp only [checkAllDebridCaches, h, Bool.false_eq_true, if_false,
        List.append_nil]
      intro hmem
      rcases List.mem_append.mp hmem with hm | hm <;> split at hm <;>
        simp at hm
  · intro mres h hc
    simp [checkAllDebridCaches, h, hc]
  · intro mres h hc
    simp [checkAllDebridCaches, h, hc]
  · intro mres h hc
    simp [checkAllDebridCaches, h, hc]
  · intro h hc
    simp [checkAllDebridCaches, h, hc]

/-- Witness for claim C8: with only torbox enabled and realdebrid
rejecting, the torbox entry still carries its resolved map. -/
theorem claim_C8_witness :
    (checkAllDebridCaches
      { useRealDebrid := true, realdebridPresent := false
        useTorbox := true, torboxPresent := true
        useAllDebrid := false, alldebridPresent := false }
      .rejects (.resolves [("aa", tbUncached)]) .rejects).1.torbox =
      [("aa", tbUncached)] :=
  (claim_C8 _ _ _ _).2.2.2.2.1 [("aa", tbUncached)] rfl rfl

/-- Claim C10: the identifier lookups validate their inputs before any
remote request: imdbToTmdb returns the null pair and issues no request when
the id is missing or does not start with tt, and tmdbToImdb returns null
and issues no request when the TMDb id or the media kind is missing. -/
theorem claim_C10 :
    (∀ env : FetchOutcome FindBody,
      imdbToTmdb none env = ({ tmdbId := none, type := none }, [])) ∧
    (∀ (s : String) (env : FetchOutcome FindBody),
      jsStartsWith s "tt" = false →
      imdbToTmdb (some s) env = ({ tmdbId := none, type := none }, [])) ∧
    (∀ (type : Option String) (env : FetchOutcome DetailsBody),
      tmdbToImdb none type env = (none, [])) ∧
    (∀ (b : Option Int) (env : FetchOutcome DetailsBody),
      tmdbToImdb b none env = (none, [])) := by
  refine ⟨?_, ?_, ?_, ?_⟩
  · intro env
    rfl
  · intro s env hs
    simp [imdbToTmdb, hs]
  · intro type env
    rfl
  · intro b env
    simp [tmdbToImdb, jsStrTruthy]

/-- Witness for claim C10 on an id that does not start with tt. -/
theorem claim_C10_witness :
    jsStartsWith "0111161" "tt" = false ∧
    imdbToTmdb (some "0111161") .throws =
      ({ tmdbId := none, type := none }, []) :=
  ⟨rfl, claim_C10.2.1 "0111161" .throws rfl⟩

end IlCorsaroViola
